import Mathlib

/-!
# Verification of fusedwind/turbine/geometry.py

Shallow embedding of the planform / FFD-spline geometry module of the
fusedwind repository, together with proofs about it.  Machine floats are
embedded as exact rationals (`ℚ`); the arc-length utilities, which need a
square root, are embedded generically over a linear ordered field with the
square-root function passed as a parameter and instantiated with
`Real.sqrt` in the theorems.
-/

set_option maxHeartbeats 1000000

/-- Error taxonomy of the specification (§7).  The Python code signals these
situations by raising (`KeyError` on an unknown `spline_dict` key,
`ValueError` from the scipy spline constructors); the spec classifies
unknown-name and control-point-topology failures as `ConfigurationError` and
fit failures as `NumericalError`. -/
inductive Err where
  | configuration
  | numerical
deriving DecidableEq, Repr

/-- The two entries of `spline_dict` in geometry.py. -/
inductive SplineType where
  | pchip
  | bezier
deriving DecidableEq, Repr

/-! ## The monotone piecewise cubic (pchip) spline

`pchipSpline.__call__` in geometry.py is `scipy.interpolate.pchip(Cx, C)`
evaluated at `x`.  The definitions below embed scipy's
`PchipInterpolator`: slopes of the data, the Fritsch–Carlson/Butland
derivative rule (`_find_derivatives` with `_edge_case`), and piecewise
cubic Hermite evaluation on the interval found by a clamped binary search
(`find_interval_ascending`: the largest `k ≤ n-2` with `x k ≤ t`, else 0). -/

/-- numpy `sign`, as a rational: 1, -1 or 0. -/
def nsign (a : ℚ) : ℚ :=
  if 0 < a then 1 else if a < 0 then -1 else 0

/-- Interval widths `hk = x[1:] - x[:-1]`. -/
def hseg (x : ℕ → ℚ) (k : ℕ) : ℚ := x (k + 1) - x k

/-- Data slopes `mk = (y[1:] - y[:-1]) / hk`. -/
def mslope (x y : ℕ → ℚ) (k : ℕ) : ℚ := (y (k + 1) - y k) / (x (k + 1) - x k)

/-- scipy `PchipInterpolator._edge_case`: one-sided three-point derivative
estimate at an end point, with the two monotonicity adjustments. -/
def edgeDeriv (h0 h1 m0 m1 : ℚ) : ℚ :=
  let d := ((2 * h0 + h1) * m0 - h0 * m1) / (h0 + h1)
  if nsign d ≠ nsign m0 then 0
  else if nsign m0 ≠ nsign m1 ∧ 3 * |m0| < |d| then 3 * m0
  else d

/-- scipy `PchipInterpolator._find_derivatives`: endpoint derivatives by
`_edge_case`; interior derivatives are 0 where the neighbouring slopes
differ in sign or vanish and the weighted harmonic mean of the slopes
otherwise; two data points give the (linear) slope everywhere. -/
def pchipDerivs (n : ℕ) (x y : ℕ → ℚ) (k : ℕ) : ℚ :=
  if n = 2 then mslope x y 0
  else if k = 0 then edgeDeriv (hseg x 0) (hseg x 1) (mslope x y 0) (mslope x y 1)
  else if k = n - 1 then
    edgeDeriv (hseg x (n - 2)) (hseg x (n - 3)) (mslope x y (n - 2)) (mslope x y (n - 3))
  else if nsign (mslope x y (k - 1)) ≠ nsign (mslope x y k)
        ∨ mslope x y (k - 1) = 0 ∨ mslope x y k = 0 then 0
  else
    (2 * hseg x k + hseg x (k - 1) + (hseg x k + 2 * hseg x (k - 1)))
      / ((2 * hseg x k + hseg x (k - 1)) / mslope x y (k - 1)
          + (hseg x k + 2 * hseg x (k - 1)) / mslope x y k)

/-- Largest `k ≤ m` with `x k ≤ t`, else 0: the interval-lookup used by
scipy's PPoly evaluation (`find_interval_ascending`, extrapolation
clamped to the first/last interval), called with `m = n - 2`. -/
def findIntervalAux (x : ℕ → ℚ) (t : ℚ) : ℕ → ℕ
  | 0 => 0
  | k + 1 => if x (k + 1) ≤ t then k + 1 else findIntervalAux x t k

/-- Evaluation of the pchip interpolant through `(x i, y i)`, `i < n`, at
`t`: cubic Hermite polynomial of the interval containing `t`, written in
the Hermite basis (mathematically equal to scipy's power-basis PPoly). -/
def pchipEvalAt (n : ℕ) (x y : ℕ → ℚ) (t : ℚ) : ℚ :=
  let k := findIntervalAux x t (n - 2)
  let h := x (k + 1) - x k
  let u := (t - x k) / h
  let d := pchipDerivs n x y
  y k * (2 * u ^ 3 - 3 * u ^ 2 + 1) + h * d k * (u ^ 3 - 2 * u ^ 2 + u)
    + y (k + 1) * (-2 * u ^ 3 + 3 * u ^ 2) + h * d (k + 1) * (u ^ 3 - u ^ 2)

/-- List-level wrapper around `pchipEvalAt`. -/
def pchipEvalList (Cx C : List ℚ) (t : ℚ) : ℚ :=
  pchipEvalAt Cx.length (fun i => Cx.getD i 0) (fun i => C.getD i 0) t

/-- `pchipSpline.__call__(x, Cx, C)` (geometry.py lines 81-99):
`pchip(Cx, C)(x)`.  The scipy constructor raises unless `Cx` and `C` have
equal length, at least two points are given and `Cx` is strictly
increasing; those raises are the error cases. -/
def pchipSpline_call (xs Cx C : List ℚ) : Except Err (List ℚ) :=
  if Cx.length ≠ C.length then .error .configuration
  else if Cx.length < 2 then .error .configuration
  else if ¬ List.Chain' (· < ·) Cx then .error .configuration
  else .ok (xs.map (pchipEvalList Cx C))

example : pchipSpline_call [0, 1] [0, 1] [1, 2] = .ok [1, 2] := by
  norm_num [pchipSpline_call, pchipEvalList, pchipEvalAt, pchipDerivs, findIntervalAux,
    mslope, hseg, edgeDeriv, nsign, List.chain'_cons]

/-! ## The Bezier-driven natural-cubic strategy

`BezierSpline.__call__` (geometry.py lines 124-143) sets the control
points of a `PGL.main.bezier.BezierCurve` (an external collaborator that
is not part of this repository), recomputes the curve's sampled points,
and evaluates a `fusedwind.lib.naturalcubicspline.NaturalCubicSpline`
(repository code that is not under `src/`) through those sampled points. -/

/-- A point of the Bezier curve of the control polygon `cps`, by the
Bernstein form. -/
def bezierPoint (cps : List (ℚ × ℚ)) (t : ℚ) : ℚ × ℚ :=
  let n := cps.length - 1
  (List.range cps.length).foldl
    (fun acc i =>
      let w := (Nat.choose n i : ℚ) * t ^ i * (1 - t) ^ (n - i)
      (acc.1 + w * (cps.getD i (0, 0)).1, acc.2 + w * (cps.getD i (0, 0)).2))
    (0, 0)

/-- Number of sampled points of the Bezier curve (model parameter; the
external collaborator's sampling resolution). -/
def bezier_ni : ℕ := 100

/-- Forward sweep of the Thomas algorithm on a tridiagonal system with
sub-diagonal `a`, diagonal `b`, super-diagonal `c` and right side `r`:
entry `j` is the modified `(c, r)` pair of row `j`. -/
def thomasFwd (a b c r : ℕ → ℚ) : ℕ → ℚ × ℚ
  | 0 => (c 0 / b 0, r 0 / b 0)
  | j + 1 =>
    let pr := thomasFwd a b c r j
    let den := b (j + 1) - a (j + 1) * pr.1
    (c (j + 1) / den, (r (j + 1) - a (j + 1) * pr.2) / den)

/-- Back substitution of the Thomas algorithm on `k` unknowns; argument is
the distance from the last unknown, so index `j` has value
`thomasBack fwd k (k - 1 - j)`. -/
def thomasBack (fwd : ℕ → ℚ × ℚ) (k : ℕ) : ℕ → ℚ
  | 0 => (fwd (k - 1)).2
  | d + 1 => (fwd (k - 2 - d)).2 - (fwd (k - 2 - d)).1 * thomasBack fwd k d

/-- Modelled from the spec: `fusedwind.lib.naturalcubicspline` is not under
`src/`.  §4.2: a natural cubic spline is fitted through the sampled points;
these are its second derivatives, zero at both ends and given in the
interior by the standard tridiagonal system, solved by the Thomas
algorithm. -/
def ncsSecondDerivs (m : ℕ) (p q : ℕ → ℚ) (i : ℕ) : ℚ :=
  if m < 3 ∨ i = 0 ∨ m - 1 ≤ i then 0
  else
    let h := fun j => p (j + 1) - p j
    let a := fun j => h j
    let b := fun j => 2 * (h j + h (j + 1))
    let c := fun j => h (j + 1)
    let r := fun j => 6 * ((q (j + 2) - q (j + 1)) / h (j + 1) - (q (j + 1) - q j) / h j)
    thomasBack (thomasFwd a b c r) (m - 2) (m - 2 - i)

/-- Modelled from the spec: natural-cubic-spline evaluation at `t`, on the
interval containing `t`, in the standard second-derivative form. -/
def ncsEval (m : ℕ) (p q : ℕ → ℚ) (t : ℚ) : ℚ :=
  let M := ncsSecondDerivs m p q
  let k := findIntervalAux p t (m - 2)
  let h := p (k + 1) - p k
  let A := (p (k + 1) - t) / h
  let B := (t - p k) / h
  A * q k + B * q (k + 1) + ((A ^ 3 - A) * M k + (B ^ 3 - B) * M (k + 1)) * h ^ 2 / 6

/-- Modelled from the spec: `BezierSpline.__call__` — build the Bezier
curve of the control points `(Cx, C)` (they are zipped into one point
array, so the call fails unless the lengths agree, and a Bezier curve
needs at least two control points), sample it at `bezier_ni` uniform
parameter values, fit the natural cubic spline through the sampled points
and evaluate it at every point of `xs` (§4.2). -/
def BezierSpline_call (xs Cx C : List ℚ) : Except Err (List ℚ) :=
  if Cx.length ≠ C.length then .error .configuration
  else if Cx.length < 2 then .error .configuration
  else
    let cps := Cx.zip C
    let ts := (List.range bezier_ni).map fun j => (j : ℚ) / ((bezier_ni : ℚ) - 1)
    let pts := ts.map (bezierPoint cps)
    .ok (xs.map (ncsEval pts.length
          (fun i => (pts.getD i (0, 0)).1) (fun i => (pts.getD i (0, 0)).2)))

/-! ## Strategy selection -/

/-- `spline_dict` (geometry.py lines 146-147). -/
def spline_dict (name : String) : Option SplineType :=
  if name = "pchip" then some .pchip
  else if name = "bezier" then some .bezier
  else none

/-- `FFDSpline.set_spline` (geometry.py lines 445-448):
`self.spline = spline_dict[spline_type]()`.  A name that is not a key of
the dictionary raises (`KeyError`), which the spec's taxonomy classifies
as a configuration error (§7: unknown spline name). -/
def set_spline (spline_type : String) : Except Err SplineType :=
  match spline_dict spline_type with
  | some t => .ok t
  | none => .error .configuration

/-- Dispatch of `self.spline(self.s, self.Cx, C)` over the two strategy
classes of `spline_dict`. -/
def strategyEval : SplineType → List ℚ → List ℚ → List ℚ → Except Err (List ℚ)
  | .pchip => pchipSpline_call
  | .bezier => BezierSpline_call

/-! ## The FFD spline component -/

/-- Modelled from the spec: `curvature` lives in
`fusedwind.lib.geom_tools`, which is not under `src/`.  §4.1: discrete
signed curvature of the 2-D points, with first/second derivative
estimates from finite differences, centered in the interior and one-sided
at the two endpoints; the `3/2` power in the denominator of the curvature
formula goes through a square-root function, which is passed as a
parameter because this development works in exact arithmetic. -/
def curvature (sq : ℚ → ℚ) (pts : List (ℚ × ℚ)) : List ℚ :=
  let n := pts.length
  let X := fun i => (pts.getD i (0, 0)).1
  let Y := fun i => (pts.getD i (0, 0)).2
  let fd := fun (f : ℕ → ℚ) (i : ℕ) =>
    if i = 0 then f 1 - f 0
    else if i = n - 1 then f (n - 1) - f (n - 2)
    else (f (i + 1) - f (i - 1)) / 2
  let dX := fd X
  let dY := fd Y
  (List.range n).map fun i =>
    (dX i * fd dY i - dY i * fd dX i) / sq (dX i ^ 2 + dY i ^ 2) ^ 3

/-- numpy elementwise `+` of two equally shaped arrays; different lengths
raise (broadcasting of a length-1 operand is not modelled: every use here
adds arrays built over the same abscissa array `s`). -/
def npAdd (a b : List ℚ) : Except Err (List ℚ) :=
  if a.length = b.length then .ok (List.zipWith (· + ·) a b) else .error .numerical

/-- The per-instance constructor state of `FFDSpline.__init__`
(geometry.py lines 421-443): baseline `(s, Pinit)`, control abscissas
`Cx`, output scaler and selected spline type. -/
structure FFDSplineInst where
  s : List ℚ
  Pinit : List ℚ
  Cx : List ℚ
  scaler : ℚ
  spline_type : SplineType

/-- `FFDSpline.solve_nonlinear` (geometry.py lines 450-464): evaluate the
selected spline strategy on `(Cx, C)` at the baseline abscissas `s`
(the `initialize` call made on the same data first either fails the same
way or returns the same values, so it does not change the result), add
the scaled perturbation to the baseline and attach the curvature of the
perturbed curve. -/
def FFDSplineInst.solve_nonlinear (sq : ℚ → ℚ) (f : FFDSplineInst) (C : List ℚ) :
    Except Err (List ℚ × List ℚ) := do
  let dP ← strategyEval f.spline_type f.s f.Cx C
  let P ← npAdd f.Pinit (dP.map (· * f.scaler))
  let curv := curvature sq (f.s.zip P)
  return (P, curv)

/-! ## The initialization flag of FFDSpline (claim C3)

`__init__` sets `self._init_called = False` (line 440); `solve_nonlinear`
re-creates the spline object and calls `self.spline.initialize` whenever
`not self._init_called` holds (lines 456-459).  No statement in the
source ever assigns `True` to `_init_called`.  `initialize_calls` is an
instrumentation counter of the `strategy.initialize` invocations. -/

structure FFDRunState where
  init_called : Bool
  initialize_calls : ℕ
deriving DecidableEq, Repr

/-- The state after `FFDSpline.__init__`. -/
def FFDSpline.init_state : FFDRunState :=
  { init_called := false, initialize_calls := 0 }

/-- Effect of one `solve_nonlinear` call on the initialization state,
exactly as in the source: the guard reads `_init_called`, the branch
invokes `initialize`, and `_init_called` is never written. -/
def FFDSpline.step_state (st : FFDRunState) : FFDRunState :=
  if st.init_called = false then
    { init_called := st.init_called, initialize_calls := st.initialize_calls + 1 }
  else st

/-! ## The planform resampling component -/

/-- The ten input channels of `PGLRedistributedPlanform` (`blade_ae:*`
parameters, geometry.py lines 361-370); note there is no `athick` input. -/
structure PlanformIn where
  s : List ℚ
  x : List ℚ
  y : List ℚ
  z : List ℚ
  rot_x : List ℚ
  rot_y : List ℚ
  rot_z : List ℚ
  chord : List ℚ
  rthick : List ℚ
  p_le : List ℚ

/-- The eleven output channels (`blade<name>:*`, lines 375-385). -/
structure PlanformOut where
  s : List ℚ
  x : List ℚ
  y : List ℚ
  z : List ℚ
  rot_x : List ℚ
  rot_y : List ℚ
  rot_z : List ℚ
  chord : List ℚ
  rthick : List ℚ
  p_le : List ℚ
  athick : List ℚ

/-- One channel of the fallback branch: `spl = pchip(pf_in['s'], v);
pf[k] = spl(self.s_new)` (geometry.py lines 406-408). -/
def pchip_resample (sx v s_new : List ℚ) : Except Err (List ℚ) :=
  pchipSpline_call s_new sx v

/-- `PGLRedistributedPlanform.solve_nonlinear` (geometry.py lines
388-412).  With PGL installed the planform is produced by the external
`redistribute_planform` collaborator, modelled by the parameter `pgl`;
without it every input channel is resampled with scipy pchip.  In both
branches the `athick` output is finally overwritten with the elementwise
product of the output `chord` and `rthick` channels (line 412). -/
def PGLRedistributedPlanform.solve_nonlinear (pgl_installed : Bool)
    (pgl : PlanformIn → List ℚ → PlanformOut) (pf : PlanformIn) (s_new : List ℚ) :
    Except Err PlanformOut :=
  if pgl_installed then
    let p := pgl pf s_new
    .ok { p with athick := List.zipWith (· * ·) p.chord p.rthick }
  else do
    let s' ← pchip_resample pf.s pf.s s_new
    let x' ← pchip_resample pf.s pf.x s_new
    let y' ← pchip_resample pf.s pf.y s_new
    let z' ← pchip_resample pf.s pf.z s_new
    let rot_x' ← pchip_resample pf.s pf.rot_x s_new
    let rot_y' ← pchip_resample pf.s pf.rot_y s_new
    let rot_z' ← pchip_resample pf.s pf.rot_z s_new
    let chord' ← pchip_resample pf.s pf.chord s_new
    let rthick' ← pchip_resample pf.s pf.rthick s_new
    let p_le' ← pchip_resample pf.s pf.p_le s_new
    return { s := s', x := x', y := y', z := z', rot_x := rot_x', rot_y := rot_y',
             rot_z := rot_z', chord := chord', rthick := rthick', p_le := p_le',
             athick := List.zipWith (· * ·) chord' rthick' }

/-- `ComputeAthick.solve_nonlinear` (geometry.py lines 498-500):
`athick = chord * rthick` elementwise. -/
def ComputeAthick.solve_nonlinear (chord rthick : List ℚ) : List ℚ :=
  List.zipWith (· * ·) chord rthick

/-- A well-formed input planform in the sense of the data model (§3): a
strictly increasing abscissa channel `s` with at least two entries (the
scipy pchip constructor of the fallback branch requires both) and all
other channels of the same length. -/
def PlanformIn.wf (pf : PlanformIn) : Prop :=
  List.Chain' (· < ·) pf.s ∧ 2 ≤ pf.s.length
    ∧ pf.x.length = pf.s.length ∧ pf.y.length = pf.s.length ∧ pf.z.length = pf.s.length
    ∧ pf.rot_x.length = pf.s.length ∧ pf.rot_y.length = pf.s.length
    ∧ pf.rot_z.length = pf.s.length ∧ pf.chord.length = pf.s.length
    ∧ pf.rthick.length = pf.s.length ∧ pf.p_le.length = pf.s.length

/-! ## Arc length and reading a planform table

`read_blade_planform` (geometry.py lines 152-198) reads a 9-column table
and derives the planform dictionary.  It uses `calculate_length` from
`fusedwind.lib.geom_tools`, which is not under `src/` and is therefore
modelled from the spec.  The square root needed by the Euclidean norm is
irrational, so this part of the development is generic over a linear
ordered field `K` with the square-root function passed as a parameter;
the theorems instantiate `K := ℝ` with `Real.sqrt`. -/

variable {K : Type} [LinearOrderedField K]

/-- Euclidean length of the segment between two 3-D points. -/
def segLen (sq : K → K) (p q : K × K × K) : K :=
  sq ((q.1 - p.1) ^ 2 + (q.2.1 - p.2.1) ^ 2 + (q.2.2 - p.2.2) ^ 2)

/-- Cumulative lengths of the segments after the first point, starting
from the accumulated length `acc` at the point `p`. -/
def arcFrom (sq : K → K) (p : K × K × K) (acc : K) : List (K × K × K) → List K
  | [] => []
  | q :: qs => (acc + segLen sq p q) :: arcFrom sq q (acc + segLen sq p q) qs

/-- Modelled from the spec: `calculate_length` lives in
`fusedwind.lib.geom_tools`, which is not under `src/`.  §4.1 `arc_length`:
cumulative Euclidean distance from the first point; result length equals
input length; first entry is 0; nondecreasing. -/
def calculate_length (sq : K → K) : List (K × K × K) → List K
  | [] => []
  | p :: ps => 0 :: arcFrom sq p 0 ps

/-- numpy `.max()` of an array (meaningful on nonempty input). -/
def npmax : List K → K
  | [] => 0
  | h :: t => t.foldl max h

/-- One row of the planform table, in the column order documented in
`read_blade_planform`: x, y, z, rot_x, rot_y, rot_z, chord, rthick, p_le. -/
structure BladeRow (K : Type) where
  x : K
  y : K
  z : K
  rot_x : K
  rot_y : K
  rot_z : K
  chord : K
  rthick : K
  p_le : K

/-- The dictionary returned by `read_blade_planform`. -/
structure BladePF (K : Type) where
  blade_length : K
  s : List K
  smax : K
  x : List K
  y : List K
  z : List K
  rot_x : List K
  rot_y : List K
  rot_z : List K
  chord : List K
  rthick : List K
  athick : List K
  p_le : List K

/-- `read_blade_planform` (geometry.py lines 179-198) on the loaded table:
`s = calculate_length(data[:, [0,1,2]])`, `blade_length = data[-1, 2]`
(the last z-coordinate), `s` normalized by its last entry, `smax` the last
entry, `x`, `y`, `z` and `chord` divided by `data[-1, 2]`, `rthick`
divided by its maximum, `athick = rthick * chord`. -/
def read_blade_planform (sq : K → K) (data : List (BladeRow K)) : BladePF K :=
  let sraw := calculate_length sq (data.map fun r => (r.x, r.y, r.z))
  let zlast := (data.map BladeRow.z).getLastD 0
  let rt0 := data.map BladeRow.rthick
  let rthick := rt0.map (· / npmax rt0)
  let chord := data.map fun r => r.chord / zlast
  { blade_length := zlast
    s := sraw.map (· / sraw.getLastD 0)
    smax := sraw.getLastD 0
    x := data.map fun r => r.x / zlast
    y := data.map fun r => r.y / zlast
    z := data.map fun r => r.z / zlast
    rot_x := data.map BladeRow.rot_x
    rot_y := data.map BladeRow.rot_y
    rot_z := data.map BladeRow.rot_z
    chord := chord
    rthick := rthick
    athick := List.zipWith (· * ·) rthick chord
    p_le := data.map BladeRow.p_le }

/-! ## Lemmas: interval lookup and knot pass-through of the pchip spline -/

lemma findIntervalAux_le (x : ℕ → ℚ) (t : ℚ) (m : ℕ) : findIntervalAux x t m ≤ m := by
  induction m with
  | zero => simp [findIntervalAux]
  | succ m ih =>
    unfold findIntervalAux
    split
    · exact le_rfl
    · exact le_trans ih (Nat.le_succ m)

lemma findIntervalAux_last (x : ℕ → ℚ) (t : ℚ) (m : ℕ) (h : x m ≤ t) :
    findIntervalAux x t m = m := by
  cases m with
  | zero => rfl
  | succ m => simp [findIntervalAux, h]

lemma findIntervalAux_eq (x : ℕ → ℚ) (t : ℚ) (i : ℕ) (m : ℕ) (him : i ≤ m) (hit : x i ≤ t)
    (hup : ∀ k, i < k → k ≤ m → t < x k) : findIntervalAux x t m = i := by
  induction m with
  | zero =>
    interval_cases i
    rfl
  | succ m ih =>
    unfold findIntervalAux
    by_cases hc : x (m + 1) ≤ t
    · rcases eq_or_lt_of_le him with rfl | hlt
      · simp [hc]
      · exact absurd hc (not_le.mpr (hup (m + 1) (by omega) le_rfl))
    · have hi : i ≤ m := by
        rcases eq_or_lt_of_le him with rfl | hlt
        · exact absurd hit hc
        · omega
      simp only [hc, if_false]
      exact ih hi (fun k hik hk => hup k hik (by omega))

lemma adjacent_strictMono (n : ℕ) (x : ℕ → ℚ) (hadj : ∀ i, i + 1 < n → x i < x (i + 1)) :
    ∀ i j, i < j → j < n → x i < x j := by
  intro i j
  induction j with
  | zero => omega
  | succ j ih =>
    intro hij hjn
    rcases Nat.lt_succ_iff_lt_or_eq.mp hij with h | h
    · exact lt_trans (ih h (by omega)) (hadj j hjn)
    · subst h
      exact hadj i hjn

lemma pchipEvalAt_knot (n : ℕ) (x y : ℕ → ℚ) (h2 : 2 ≤ n)
    (hadj : ∀ i, i + 1 < n → x i < x (i + 1)) (i : ℕ) (hi : i < n) :
    pchipEvalAt n x y (x i) = y i := by
  by_cases hle : i ≤ n - 2
  · have hk : findIntervalAux x (x i) (n - 2) = i :=
      findIntervalAux_eq x (x i) i (n - 2) hle le_rfl
        (fun k hik hk => adjacent_strictMono n x hadj i k hik (by omega))
    simp only [pchipEvalAt, hk, sub_self, zero_div]
    ring
  · have hi' : i = n - 1 := by omega
    subst hi'
    have h21 : n - 2 + 1 = n - 1 := by omega
    have hlt : x (n - 2) < x (n - 1) := by
      have := hadj (n - 2) (by omega)
      rwa [h21] at this
    have hk : findIntervalAux x (x (n - 1)) (n - 2) = n - 2 :=
      findIntervalAux_last x (x (n - 1)) (n - 2) (le_of_lt hlt)
    have hne : x (n - 1) - x (n - 2) ≠ 0 := sub_ne_zero.mpr (ne_of_gt hlt)
    simp only [pchipEvalAt, hk, h21]
    rw [div_self hne]
    ring

/-- C5.  For the monotone-piecewise-cubic strategy with strictly
increasing control abscissas `Cx` (at least two of them) and control
ordinates `C` of the same length, evaluating at the control abscissas
themselves returns `C` — here exactly, in exact arithmetic, which implies
the claimed 1e-10 tolerance at every control point. -/
theorem pchip_passthrough_at_control_points (Cx C : List ℚ) (h2 : 2 ≤ Cx.length)
    (hlen : C.length = Cx.length) (hmono : List.Chain' (· < ·) Cx) :
    pchipSpline_call Cx Cx C = .ok C := by
  have hadj : ∀ i, i + 1 < Cx.length → Cx.getD i 0 < Cx.getD (i + 1) 0 := by
    intro i hi
    have h := List.chain'_iff_get.mp hmono i (by omega)
    rw [List.getD_eq_getElem Cx 0 (show i < Cx.length by omega), List.getD_eq_getElem Cx 0 hi]
    simpa [List.get_eq_getElem] using h
  unfold pchipSpline_call
  rw [if_neg (by omega), if_neg (by omega), if_neg (not_not_intro hmono)]
  refine congrArg Except.ok ?_
  apply List.ext_getElem
  · simp [hlen]
  · intro i h1 h2'
    simp only [List.getElem_map]
    have hCx : Cx[i] = Cx.getD i 0 :=
      (List.getD_eq_getElem Cx 0 (by simpa using h1)).symm
    rw [hCx]
    show pchipEvalList Cx C (Cx.getD i 0) = C[i]
    unfold pchipEvalList
    rw [pchipEvalAt_knot Cx.length _ _ h2 hadj i (by simpa using h1)]
    exact List.getD_eq_getElem C 0 h2'

/-- Witness for C5 at `Cx = [0,1,2]`, `C = [5,7,6]`. -/
theorem pchip_passthrough_at_control_points_witness :
    (2 ≤ ([0, 1, 2] : List ℚ).length
      ∧ ([5, 7, 6] : List ℚ).length = ([0, 1, 2] : List ℚ).length
      ∧ List.Chain' (· < ·) ([0, 1, 2] : List ℚ))
    ∧ pchipSpline_call [0, 1, 2] [0, 1, 2] [5, 7, 6] = .ok [5, 7, 6] :=
  ⟨⟨by norm_num, by norm_num, by norm_num [List.chain'_cons]⟩,
   pchip_passthrough_at_control_points [0, 1, 2] [5, 7, 6] (by norm_num) (by norm_num)
     (by norm_num [List.chain'_cons])⟩

/-! ## Lemmas: pchip on all-zero ordinates and on identity data -/

lemma chain'_lt_getD (l : List ℚ) (h : List.Chain' (· < ·) l) :
    ∀ i, i + 1 < l.length → l.getD i 0 < l.getD (i + 1) 0 := by
  intro i hi
  have hg := List.chain'_iff_get.mp h i (by omega)
  rw [List.getD_eq_getElem l 0 (show i < l.length by omega), List.getD_eq_getElem l 0 hi]
  simpa [List.get_eq_getElem] using hg

lemma mslope_eq_zero (x y : ℕ → ℚ) (hy : ∀ i, y i = 0) (k : ℕ) : mslope x y k = 0 := by
  simp [mslope, hy]

lemma edgeDeriv_zero (h0 h1 : ℚ) : edgeDeriv h0 h1 0 0 = 0 := by
  simp [edgeDeriv]

lemma pchipDerivs_eq_zero (n : ℕ) (x y : ℕ → ℚ) (hy : ∀ i, y i = 0) (k : ℕ) :
    pchipDerivs n x y k = 0 := by
  unfold pchipDerivs
  simp [mslope_eq_zero x y hy, edgeDeriv_zero]

lemma pchipEvalAt_eq_zero (n : ℕ) (x y : ℕ → ℚ) (hy : ∀ i, y i = 0) (t : ℚ) :
    pchipEvalAt n x y t = 0 := by
  simp [pchipEvalAt, hy, pchipDerivs_eq_zero n x y hy]

lemma mslope_id (x : ℕ → ℚ) (k : ℕ) (h : x k < x (k + 1)) : mslope x x k = 1 :=
  div_self (sub_ne_zero.mpr (ne_of_gt h))

lemma edgeDeriv_one (h0 h1 : ℚ) (hpos : 0 < h0 + h1) : edgeDeriv h0 h1 1 1 = 1 := by
  unfold edgeDeriv
  have hd : ((2 * h0 + h1) * 1 - h0 * 1) / (h0 + h1) = 1 := by
    rw [show (2 * h0 + h1) * 1 - h0 * 1 = h0 + h1 by ring]
    exact div_self (ne_of_gt hpos)
  have hd2 : (2 * h0 + h1 - h0) / (h0 + h1) = 1 := by
    rw [show 2 * h0 + h1 - h0 = h0 + h1 by ring]
    exact div_self (ne_of_gt hpos)
  simp [hd, hd2]

lemma pchipDerivs_id (n : ℕ) (x : ℕ → ℚ) (h2 : 2 ≤ n)
    (hadj : ∀ i, i + 1 < n → x i < x (i + 1)) (k : ℕ) (hk : k ≤ n - 1) :
    pchipDerivs n x x k = 1 := by
  unfold pchipDerivs
  by_cases hn : n = 2
  · rw [if_pos hn]
    exact mslope_id x 0 (hadj 0 (by omega))
  · rw [if_neg hn]
    by_cases hk0 : k = 0
    · rw [if_pos hk0]
      rw [mslope_id x 0 (hadj 0 (by omega)), mslope_id x 1 (hadj 1 (by omega))]
      exact edgeDeriv_one _ _ (by
        have a0 : 0 < hseg x 0 := sub_pos.mpr (hadj 0 (by omega))
        have a1 : 0 < hseg x 1 := sub_pos.mpr (hadj 1 (by omega))
        linarith)
    · rw [if_neg hk0]
      by_cases hkn : k = n - 1
      · rw [if_pos hkn]
        rw [mslope_id x (n - 2) (hadj (n - 2) (by omega)),
          mslope_id x (n - 3) (hadj (n - 3) (by omega))]
        exact edgeDeriv_one _ _ (by
          have a0 : 0 < hseg x (n - 2) := sub_pos.mpr (hadj (n - 2) (by omega))
          have a1 : 0 < hseg x (n - 3) := sub_pos.mpr (hadj (n - 3) (by omega))
          linarith)
      · rw [if_neg hkn]
        rw [mslope_id x (k - 1) (hadj (k - 1) (by omega)),
          mslope_id x k (hadj k (by omega))]
        rw [if_neg (by simp)]
        have a0 : 0 < hseg x k := sub_pos.mpr (hadj k (by omega))
        have a1 : 0 < hseg x (k - 1) := sub_pos.mpr (hadj (k - 1) (by omega))
        rw [div_one, div_one]
        exact div_self (by linarith)

lemma pchipEvalAt_id (n : ℕ) (x : ℕ → ℚ) (h2 : 2 ≤ n)
    (hadj : ∀ i, i + 1 < n → x i < x (i + 1)) (t : ℚ) :
    pchipEvalAt n x x t = t := by
  simp only [pchipEvalAt]
  set k := findIntervalAux x t (n - 2) with hk
  have hkle : k ≤ n - 2 := hk ▸ findIntervalAux_le x t (n - 2)
  have d1 : pchipDerivs n x x k = 1 := pchipDerivs_id n x h2 hadj k (by omega)
  have d2 : pchipDerivs n x x (k + 1) = 1 := pchipDerivs_id n x h2 hadj (k + 1) (by omega)
  have hlt : x k < x (k + 1) := hadj k (by omega)
  have hne : x (k + 1) - x k ≠ 0 := sub_ne_zero.mpr (ne_of_gt hlt)
  rw [d1, d2]
  field_simp
  ring

/-! ## Helper lemmas for the components -/

lemma except_bind_ok {α β : Type} (x : Except Err α) (f : α → Except Err β) (b : β)
    (h : (x >>= f) = .ok b) : ∃ a, x = .ok a ∧ f a = .ok b := by
  cases x with
  | error e => simp [Bind.bind, Except.bind] at h
  | ok a => exact ⟨a, rfl, by simpa [Bind.bind, Except.bind] using h⟩

lemma zipWith_add_map_zero (a b : List ℚ) (h : a.length ≤ b.length) :
    List.zipWith (· + ·) a (b.map fun _ => (0 : ℚ)) = a := by
  induction a generalizing b with
  | nil => rfl
  | cons x xs ih =>
    cases b with
    | nil => simp at h
    | cons y ys =>
      simp only [List.map_cons, List.zipWith_cons_cons, add_zero, List.cons.injEq]
      exact ⟨trivial, ih ys (by simpa using h)⟩

lemma strategyEval_ok_length (ty : SplineType) (xs Cx C d : List ℚ)
    (h : strategyEval ty xs Cx C = .ok d) : d.length = xs.length := by
  cases ty
  · simp only [strategyEval, pchipSpline_call] at h
    split at h
    · cases h
    · split at h
      · cases h
      · split at h
        · cases h
        · simp only [Except.ok.injEq] at h
          subst h
          simp
  · simp only [strategyEval, BezierSpline_call] at h
    split at h
    · cases h
    · split at h
      · cases h
      · simp only [Except.ok.injEq] at h
        subst h
        simp

lemma npAdd_ok (a b : List ℚ) (h : a.length = b.length) :
    npAdd a b = .ok (List.zipWith (· + ·) a b) := by
  simp [npAdd, h]

lemma curvature_length (sq : ℚ → ℚ) (pts : List (ℚ × ℚ)) :
    (curvature sq pts).length = pts.length := by
  simp [curvature]

/-- C10.  An FFDSpline with the pchip strategy, a valid control topology
and the all-zero control vector (the component's default, since the `_C`
parameter is declared as `np.zeros(nC)`) reproduces the baseline exactly:
the interpolant through all-zero ordinates is identically zero, so
`P_out = P_init`. -/
theorem ffd_zero_control_returns_baseline (sq : ℚ → ℚ) (f : FFDSplineInst)
    (hty : f.spline_type = .pchip) (h2 : 2 ≤ f.Cx.length)
    (hmono : List.Chain' (· < ·) f.Cx) (hN : f.s.length = f.Pinit.length)
    (hdom : ∀ c ∈ f.Cx, f.s.getD 0 0 ≤ c ∧ c ≤ f.s.getLastD 0) :
    ∃ curv, f.solve_nonlinear sq (List.replicate f.Cx.length 0) = .ok (f.Pinit, curv) := by
  have hzero : ∀ t, pchipEvalList f.Cx (List.replicate f.Cx.length 0) t = 0 := by
    intro t
    unfold pchipEvalList
    apply pchipEvalAt_eq_zero
    intro i
    rcases lt_or_ge i (List.replicate f.Cx.length (0 : ℚ)).length with h | h
    · rw [List.getD_eq_getElem _ _ h]
      simp
    · rw [List.getD_eq_default _ _ h]
  have hcall : pchipSpline_call f.s f.Cx (List.replicate f.Cx.length 0)
      = .ok (f.s.map fun _ => (0 : ℚ)) := by
    unfold pchipSpline_call
    rw [if_neg (by simp), if_neg (by omega), if_neg (not_not_intro hmono)]
    exact congrArg Except.ok (List.map_congr_left fun t _ => hzero t)
  have hd : strategyEval f.spline_type f.s f.Cx (List.replicate f.Cx.length 0)
      = .ok (f.s.map fun _ => (0 : ℚ)) := by
    rw [hty]
    exact hcall
  have hmap : (f.s.map fun _ => (0 : ℚ)).map (· * f.scaler) = f.s.map fun _ => (0 : ℚ) := by
    simp
  have hadd : npAdd f.Pinit (f.s.map fun _ => (0 : ℚ)) = .ok f.Pinit := by
    unfold npAdd
    rw [if_pos (by simp [hN])]
    exact congrArg Except.ok (zipWith_add_map_zero f.Pinit f.s (le_of_eq hN.symm))
  unfold FFDSplineInst.solve_nonlinear
  rw [hd]
  simp only [Bind.bind, Except.bind]
  rw [hmap, hadd]
  exact ⟨_, rfl⟩

/-- Witness for C10 at a concrete pchip instance. -/
theorem ffd_zero_control_returns_baseline_witness :
    ((FFDSplineInst.mk [0, 1/2, 1] [3, 4, 5] [0, 1] 2 SplineType.pchip).spline_type
        = SplineType.pchip
      ∧ 2 ≤ ([0, 1] : List ℚ).length
      ∧ List.Chain' (· < ·) ([0, 1] : List ℚ)
      ∧ ([0, (1 : ℚ)/2, 1] : List ℚ).length = ([3, 4, 5] : List ℚ).length
      ∧ ∀ c ∈ ([0, 1] : List ℚ),
          ([0, (1 : ℚ)/2, 1] : List ℚ).getD 0 0 ≤ c
            ∧ c ≤ ([0, (1 : ℚ)/2, 1] : List ℚ).getLastD 0)
    ∧ ∃ curv,
        (FFDSplineInst.mk [0, 1/2, 1] [3, 4, 5] [0, 1] 2 SplineType.pchip).solve_nonlinear
          id (List.replicate ([0, 1] : List ℚ).length 0) = .ok ([3, 4, 5], curv) :=
  ⟨⟨rfl, by norm_num, by norm_num [List.chain'_cons], by norm_num, by
      intro c hc
      fin_cases hc <;> norm_num [List.getLastD]⟩,
   ffd_zero_control_returns_baseline id _ rfl (by norm_num) (by norm_num [List.chain'_cons])
     (by norm_num) (by intro c hc; fin_cases hc <;> norm_num [List.getLastD])⟩

/-! ## Lemmas for the fallback resampling path -/

lemma pchip_resample_ok (sx v s_new : List ℚ) (hmono : List.Chain' (· < ·) sx)
    (h2 : 2 ≤ sx.length) (hlen : v.length = sx.length) :
    pchip_resample sx v s_new = .ok (s_new.map (pchipEvalList sx v)) := by
  unfold pchip_resample pchipSpline_call
  rw [if_neg (by omega), if_neg (by omega), if_neg (not_not_intro hmono)]

lemma pchip_resample_id (sx s_new : List ℚ) (hmono : List.Chain' (· < ·) sx)
    (h2 : 2 ≤ sx.length) : pchip_resample sx sx s_new = .ok s_new := by
  rw [pchip_resample_ok sx sx s_new hmono h2 rfl]
  refine congrArg Except.ok ?_
  have hid : ∀ t, pchipEvalList sx sx t = t := fun t =>
    pchipEvalAt_id sx.length _ h2 (chain'_lt_getD sx hmono) t
  exact (List.map_congr_left fun t _ => hid t).trans (List.map_id s_new)

/-- C7.  With PGL absent, `PGLRedistributedPlanform.solve_nonlinear` still
works through the explicit-`new_s` pchip path: on a well-formed planform
it succeeds, the output `s` channel equals `new_s` (the pchip interpolant
through the identity data `(s, s)` is the identity in exact arithmetic)
and every output channel has length `len(new_s)`. -/
theorem redistribute_fallback_works (pgl : PlanformIn → List ℚ → PlanformOut)
    (pf : PlanformIn) (s_new : List ℚ) (hwf : pf.wf)
    (hnd : List.Chain' (· ≤ ·) s_new) :
    ∃ out, PGLRedistributedPlanform.solve_nonlinear false pgl pf s_new = .ok out
      ∧ out.s = s_new
      ∧ out.x.length = s_new.length ∧ out.y.length = s_new.length
      ∧ out.z.length = s_new.length ∧ out.rot_x.length = s_new.length
      ∧ out.rot_y.length = s_new.length ∧ out.rot_z.length = s_new.length
      ∧ out.chord.length = s_new.length ∧ out.rthick.length = s_new.length
      ∧ out.p_le.length = s_new.length ∧ out.athick.length = s_new.length := by
  obtain ⟨hmono, h2, hlx, hly, hlz, hlrx, hlry, hlrz, hlc, hlr, hlp⟩ := hwf
  have hsolve : PGLRedistributedPlanform.solve_nonlinear false pgl pf s_new
      = .ok { s := s_new,
              x := s_new.map (pchipEvalList pf.s pf.x),
              y := s_new.map (pchipEvalList pf.s pf.y),
              z := s_new.map (pchipEvalList pf.s pf.z),
              rot_x := s_new.map (pchipEvalList pf.s pf.rot_x),
              rot_y := s_new.map (pchipEvalList pf.s pf.rot_y),
              rot_z := s_new.map (pchipEvalList pf.s pf.rot_z),
              chord := s_new.map (pchipEvalList pf.s pf.chord),
              rthick := s_new.map (pchipEvalList pf.s pf.rthick),
              p_le := s_new.map (pchipEvalList pf.s pf.p_le),
              athick := List.zipWith (· * ·) (s_new.map (pchipEvalList pf.s pf.chord))
                          (s_new.map (pchipEvalList pf.s pf.rthick)) } := by
    unfold PGLRedistributedPlanform.solve_nonlinear
    rw [if_neg (by simp)]
    simp only [pchip_resample_id pf.s s_new hmono h2,
      pchip_resample_ok pf.s pf.x s_new hmono h2 hlx,
      pchip_resample_ok pf.s pf.y s_new hmono h2 hly,
      pchip_resample_ok pf.s pf.z s_new hmono h2 hlz,
      pchip_resample_ok pf.s pf.rot_x s_new hmono h2 hlrx,
      pchip_resample_ok pf.s pf.rot_y s_new hmono h2 hlry,
      pchip_resample_ok pf.s pf.rot_z s_new hmono h2 hlrz,
      pchip_resample_ok pf.s pf.chord s_new hmono h2 hlc,
      pchip_resample_ok pf.s pf.rthick s_new hmono h2 hlr,
      pchip_resample_ok pf.s pf.p_le s_new hmono h2 hlp,
      Bind.bind, Except.bind]
    rfl
  exact ⟨_, hsolve, rfl, by simp, by simp, by simp, by simp, by simp, by simp, by simp,
    by simp, by simp, by simp [List.length_zipWith]⟩

/-- Witness for C7 at a concrete planform and `new_s = [0, 1/2, 1]`. -/
theorem redistribute_fallback_works_witness :
    ((PlanformIn.mk [0, 1] [0, 1] [0, 1] [0, 1] [0, 1] [0, 1] [0, 1] [2, 3] [1, 1] [0, 1]).wf
      ∧ List.Chain' (· ≤ ·) ([0, (1 : ℚ)/2, 1] : List ℚ))
    ∧ ∃ out, PGLRedistributedPlanform.solve_nonlinear false
          (fun _ _ => PlanformOut.mk [] [] [] [] [] [] [] [] [] [] [])
          (PlanformIn.mk [0, 1] [0, 1] [0, 1] [0, 1] [0, 1] [0, 1] [0, 1] [2, 3] [1, 1] [0, 1])
          [0, (1 : ℚ)/2, 1] = .ok out
        ∧ out.s = [0, (1 : ℚ)/2, 1]
        ∧ out.x.length = ([0, (1 : ℚ)/2, 1] : List ℚ).length
        ∧ out.y.length = ([0, (1 : ℚ)/2, 1] : List ℚ).length
        ∧ out.z.length = ([0, (1 : ℚ)/2, 1] : List ℚ).length
        ∧ out.rot_x.length = ([0, (1 : ℚ)/2, 1] : List ℚ).length
        ∧ out.rot_y.length = ([0, (1 : ℚ)/2, 1] : List ℚ).length
        ∧ out.rot_z.length = ([0, (1 : ℚ)/2, 1] : List ℚ).length
        ∧ out.chord.length = ([0, (1 : ℚ)/2, 1] : List ℚ).length
        ∧ out.rthick.length = ([0, (1 : ℚ)/2, 1] : List ℚ).length
        ∧ out.p_le.length = ([0, (1 : ℚ)/2, 1] : List ℚ).length
        ∧ out.athick.length = ([0, (1 : ℚ)/2, 1] : List ℚ).length :=
  ⟨⟨by norm_num [PlanformIn.wf, List.chain'_cons], by norm_num [List.chain'_cons]⟩,
   redistribute_fallback_works _ _ _ (by norm_num [PlanformIn.wf, List.chain'_cons])
     (by norm_num [List.chain'_cons])⟩

/-- C1.  One `FFDSpline.solve_nonlinear` evaluation returns
`P_out = P_init + delta * scaler` with `delta = strategy.evaluate(s, Cx, C)`
and `curv = curvature (zip s P_out)`, and both outputs have the baseline
length `N`. -/
theorem ffd_solve_formula (sq : ℚ → ℚ) (f : FFDSplineInst) (C d : List ℚ)
    (hd : strategyEval f.spline_type f.s f.Cx C = .ok d)
    (hN : f.s.length = f.Pinit.length) :
    f.solve_nonlinear sq C =
      .ok (List.zipWith (· + ·) f.Pinit (d.map (· * f.scaler)),
        curvature sq (f.s.zip (List.zipWith (· + ·) f.Pinit (d.map (· * f.scaler)))))
    ∧ (List.zipWith (· + ·) f.Pinit (d.map (· * f.scaler))).length = f.Pinit.length
    ∧ (curvature sq (f.s.zip (List.zipWith (· + ·) f.Pinit (d.map (· * f.scaler))))).length
        = f.Pinit.length := by
  have hdl : d.length = f.s.length := strategyEval_ok_length _ _ _ _ _ hd
  have hml : (d.map (· * f.scaler)).length = f.Pinit.length := by simp [hdl, ← hN]
  have hPl : (List.zipWith (· + ·) f.Pinit (d.map (· * f.scaler))).length
      = f.Pinit.length := by
    simp [List.length_zipWith, hml]
  refine ⟨?_, hPl, ?_⟩
  · unfold FFDSplineInst.solve_nonlinear
    rw [hd]
    simp only [Bind.bind, Except.bind]
    rw [npAdd_ok _ _ hml.symm]
    rfl
  · rw [curvature_length]
    simp [List.length_zip, hPl, hml, ← hN]

/-- Witness for C1 at a concrete pchip instance with `scaler = 2`. -/
theorem ffd_solve_formula_witness :
    (strategyEval SplineType.pchip [0, 1] [0, 1] [1, 2] = .ok [1, 2]
      ∧ ([0, 1] : List ℚ).length = ([5, 7] : List ℚ).length)
    ∧ ((FFDSplineInst.mk [0, 1] [5, 7] [0, 1] 2 SplineType.pchip).solve_nonlinear id [1, 2]
        = .ok (List.zipWith (· + ·) [5, 7] (([1, 2] : List ℚ).map (· * 2)),
            curvature id (([0, 1] : List ℚ).zip
              (List.zipWith (· + ·) [5, 7] (([1, 2] : List ℚ).map (· * 2)))))
      ∧ (List.zipWith (· + ·) ([5, 7] : List ℚ) (([1, 2] : List ℚ).map (· * 2))).length
          = ([5, 7] : List ℚ).length
      ∧ (curvature id (([0, 1] : List ℚ).zip
            (List.zipWith (· + ·) [5, 7] (([1, 2] : List ℚ).map (· * 2))))).length
          = ([5, 7] : List ℚ).length) :=
  ⟨⟨by norm_num [strategyEval, pchipSpline_call, pchipEvalList, pchipEvalAt, pchipDerivs,
      findIntervalAux, mslope, hseg, edgeDeriv, nsign, List.chain'_cons], by norm_num⟩,
   ffd_solve_formula id _ [1, 2] [1, 2]
     (by norm_num [strategyEval, pchipSpline_call, pchipEvalList, pchipEvalAt, pchipDerivs,
       findIntervalAux, mslope, hseg, edgeDeriv, nsign, List.chain'_cons])
     (by norm_num)⟩

/-- C9.  An evaluation whose control vector `C` has a length different
from `nC = len(Cx)` fails — both strategies refuse the mismatched control
points when the spline is (re)built, before anything is written to the
outputs — with the error the spec's taxonomy calls a configuration
error. -/
theorem ffd_length_mismatch_fails (sq : ℚ → ℚ) (f : FFDSplineInst) (C : List ℚ)
    (h : C.length ≠ f.Cx.length) :
    f.solve_nonlinear sq C = .error .configuration := by
  have h' : f.Cx.length ≠ C.length := fun he => h he.symm
  have hs : strategyEval f.spline_type f.s f.Cx C = .error .configuration := by
    cases hty : f.spline_type
    · simp [strategyEval, pchipSpline_call, h']
    · simp [strategyEval, BezierSpline_call, h']
  unfold FFDSplineInst.solve_nonlinear
  rw [hs]
  rfl

/-- Witness for C9: two control abscissas, one control value. -/
theorem ffd_length_mismatch_fails_witness :
    (([0] : List ℚ).length ≠ ([0, 1] : List ℚ).length)
    ∧ (FFDSplineInst.mk [0, 1] [5, 7] [0, 1] 1 SplineType.pchip).solve_nonlinear id [0]
        = .error .configuration :=
  ⟨by norm_num, ffd_length_mismatch_fails id _ [0] (by norm_num)⟩

/-- C8.  Requesting a spline strategy by a name outside `spline_dict`'s
key set fails: the dictionary lookup in `set_spline` raises, a failure
the spec's taxonomy classifies as `ConfigurationError`. -/
theorem set_spline_unknown_name_fails (name : String)
    (h1 : name ≠ "pchip") (h2 : name ≠ "bezier") :
    set_spline name = .error .configuration := by
  simp [set_spline, spline_dict, h1, h2]

/-- Witness for C8 at the name "akima". -/
theorem set_spline_unknown_name_fails_witness :
    ("akima" ≠ "pchip" ∧ "akima" ≠ "bezier")
    ∧ set_spline "akima" = .error .configuration :=
  ⟨⟨by decide, by decide⟩, set_spline_unknown_name_fails "akima" (by decide) (by decide)⟩

/-- C3 (evidence of the code bug).  In the source, `_init_called` starts
`False` and is never assigned afterwards, so the `initialize` branch of
`solve_nonlinear` runs on every evaluation: after two evaluations with
unchanged topology the strategy has been initialized twice, not once as
the claim (and the evident intent of the `_init_called` flag) requires. -/
theorem ffd_initialize_runs_every_call :
    (FFDSpline.step_state (FFDSpline.step_state FFDSpline.init_state)).initialize_calls = 2
    ∧ (FFDSpline.step_state FFDSpline.init_state).init_called = false :=
  ⟨rfl, rfl⟩

/-- C2.  Every successful redistribute call — through the external PGL
collaborator or through the pchip fallback — produces the `athick` output
as the literal elementwise product of the chord and rthick outputs
(geometry.py line 412 overwrites it in both branches; moreover the
component has no `athick` input at all, so the input `athick` is never
interpolated), and `ComputeAthick.solve_nonlinear` is that fresh product. -/
theorem redistribute_athick_is_fresh_product :
    (∀ (inst : Bool) (pgl : PlanformIn → List ℚ → PlanformOut) (pf : PlanformIn)
        (s_new : List ℚ) (out : PlanformOut),
        PGLRedistributedPlanform.solve_nonlinear inst pgl pf s_new = .ok out →
        out.athick = List.zipWith (· * ·) out.chord out.rthick)
    ∧ ∀ chord rthick : List ℚ,
        ComputeAthick.solve_nonlinear chord rthick = List.zipWith (· * ·) chord rthick := by
  constructor
  · intro inst pgl pf s_new out h
    cases inst
    · unfold PGLRedistributedPlanform.solve_nonlinear at h
      rw [if_neg Bool.false_ne_true] at h
      obtain ⟨a1, _, h⟩ := except_bind_ok _ _ _ h
      obtain ⟨a2, _, h⟩ := except_bind_ok _ _ _ h
      obtain ⟨a3, _, h⟩ := except_bind_ok _ _ _ h
      obtain ⟨a4, _, h⟩ := except_bind_ok _ _ _ h
      obtain ⟨a5, _, h⟩ := except_bind_ok _ _ _ h
      obtain ⟨a6, _, h⟩ := except_bind_ok _ _ _ h
      obtain ⟨a7, _, h⟩ := except_bind_ok _ _ _ h
      obtain ⟨a8, _, h⟩ := except_bind_ok _ _ _ h
      obtain ⟨a9, _, h⟩ := except_bind_ok _ _ _ h
      obtain ⟨a10, _, h⟩ := except_bind_ok _ _ _ h
      simp only [pure, Except.pure, Except.ok.injEq] at h
      subst h
      rfl
    · unfold PGLRedistributedPlanform.solve_nonlinear at h
      rw [if_pos rfl] at h
      simp only [Except.ok.injEq] at h
      subst h
      rfl
  · intro c r
    rfl

/-- Witness for C2: a concrete fallback run on a two-point planform. -/
theorem redistribute_athick_is_fresh_product_witness :
    PGLRedistributedPlanform.solve_nonlinear false
        (fun _ _ => PlanformOut.mk [] [] [] [] [] [] [] [] [] [] [])
        (PlanformIn.mk [0, 1] [0, 1] [0, 1] [0, 1] [0, 1] [0, 1] [0, 1] [2, 3]
          [1, 1/2] [0, 1]) [0, 1]
      = .ok (PlanformOut.mk [0, 1] [0, 1] [0, 1] [0, 1] [0, 1] [0, 1] [0, 1] [2, 3]
          [1, 1/2] [0, 1] [2, 3/2])
    ∧ (PlanformOut.mk [0, 1] [0, 1] [0, 1] [0, 1] [0, 1] [0, 1] [0, 1] [2, 3]
          [1, 1/2] [0, 1] ([2, 3/2] : List ℚ)).athick
        = List.zipWith (· * ·)
            (PlanformOut.mk [0, 1] [0, 1] [0, 1] [0, 1] [0, 1] [0, 1] [0, 1] [2, 3]
              [1, 1/2] [0, 1] ([2, 3/2] : List ℚ)).chord
            (PlanformOut.mk [0, 1] [0, 1] [0, 1] [0, 1] [0, 1] [0, 1] [0, 1] [2, 3]
              [1, 1/2] [0, 1] ([2, 3/2] : List ℚ)).rthick := by
  have heval : PGLRedistributedPlanform.solve_nonlinear false
      (fun _ _ => PlanformOut.mk [] [] [] [] [] [] [] [] [] [] [])
      (PlanformIn.mk [0, 1] [0, 1] [0, 1] [0, 1] [0, 1] [0, 1] [0, 1] [2, 3]
        [1, 1/2] [0, 1]) [0, 1]
      = .ok (PlanformOut.mk [0, 1] [0, 1] [0, 1] [0, 1] [0, 1] [0, 1] [0, 1] [2, 3]
        [1, 1/2] [0, 1] [2, 3/2]) := by
    norm_num [PGLRedistributedPlanform.solve_nonlinear, pchip_resample, pchipSpline_call,
      pchipEvalList, pchipEvalAt, pchipDerivs, findIntervalAux, mslope, hseg, edgeDeriv,
      nsign, List.chain'_cons, Bind.bind, Except.bind, pure, Except.pure]
  exact ⟨heval, redistribute_athick_is_fresh_product.1 false _ _ _ _ heval⟩

/-! ## Lemmas for the planform reader -/

lemma getLast?_eq_some_getLastD (l : List K) (h : l ≠ []) :
    l.getLast? = some (l.getLastD 0) := by
  rw [List.getLastD_eq_getLast?]
  cases hl : l.getLast? with
  | none => exact absurd (List.getLast?_eq_none_iff.mp hl) h
  | some a => rfl

lemma foldl_max_div (M : K) (hM : 0 < M) (l : List K) (a : K) :
    (l.map (· / M)).foldl max (a / M) = (l.foldl max a) / M := by
  induction l generalizing a with
  | nil => rfl
  | cons x xs ih =>
    simp only [List.map_cons, List.foldl_cons]
    rw [max_div_div_right (le_of_lt hM) a x, ih (max a x)]

lemma npmax_map_div (l : List K) (M : K) (hM : 0 < M) :
    npmax (l.map (· / M)) = npmax l / M := by
  cases l with
  | nil => simp [npmax]
  | cons x xs =>
    simp only [npmax, List.map_cons]
    exact foldl_max_div M hM xs x

/-- C6.  On any table whose parse succeeds meaningfully (nonempty data, a
positive raw `rthick` maximum and a positive total arc length — any
physically valid planform table satisfies all three), the planform
returned by `read_blade_planform` has `max(rthick) = 1` exactly,
`s[0] = 0` and `s[-1] = 1`. -/
theorem read_blade_planform_post_invariant (data : List (BladeRow ℝ)) (hne : data ≠ [])
    (hmax : 0 < npmax (data.map BladeRow.rthick))
    (htot : 0 < (calculate_length Real.sqrt (data.map fun r => (r.x, r.y, r.z))).getLastD 0) :
    npmax (read_blade_planform Real.sqrt data).rthick = 1
    ∧ (read_blade_planform Real.sqrt data).s.head? = some 0
    ∧ (read_blade_planform Real.sqrt data).s.getLast? = some 1 := by
  refine ⟨?_, ?_, ?_⟩
  · show npmax ((data.map BladeRow.rthick).map (· / npmax (data.map BladeRow.rthick))) = 1
    rw [npmax_map_div _ _ hmax]
    exact div_self (ne_of_gt hmax)
  · obtain ⟨r, rest, rfl⟩ := List.exists_cons_of_ne_nil hne
    show (((calculate_length Real.sqrt ((r :: rest).map fun p => (p.x, p.y, p.z))).map
      (· / (calculate_length Real.sqrt ((r :: rest).map fun p =>
        (p.x, p.y, p.z))).getLastD 0))).head? = some 0
    simp [calculate_length]
  · have hne' : calculate_length Real.sqrt (data.map fun r => (r.x, r.y, r.z)) ≠ [] := by
      obtain ⟨r, rest, rfl⟩ := List.exists_cons_of_ne_nil hne
      simp [calculate_length]
    show ((calculate_length Real.sqrt (data.map fun r => (r.x, r.y, r.z))).map
      (· / (calculate_length Real.sqrt (data.map fun r =>
        (r.x, r.y, r.z))).getLastD 0)).getLast? = some 1
    rw [List.getLast?_map, getLast?_eq_some_getLastD _ hne']
    simp only [Option.map_some']
    rw [div_self (ne_of_gt htot)]

/-- Witness for C6: a two-row table along the z-axis. -/
theorem read_blade_planform_post_invariant_witness :
    (([BladeRow.mk 0 0 0 0 0 0 1 1 0, BladeRow.mk 0 0 1 0 0 0 1 1 0] : List (BladeRow ℝ)) ≠ []
      ∧ 0 < npmax (([BladeRow.mk 0 0 0 0 0 0 1 1 0,
            BladeRow.mk (0:ℝ) 0 1 0 0 0 1 1 0]).map BladeRow.rthick)
      ∧ 0 < (calculate_length Real.sqrt
          (([BladeRow.mk 0 0 0 0 0 0 1 1 0, BladeRow.mk (0:ℝ) 0 1 0 0 0 1 1 0]).map
            fun r => (r.x, r.y, r.z))).getLastD 0)
    ∧ (npmax (read_blade_planform Real.sqrt
          [BladeRow.mk 0 0 0 0 0 0 1 1 0, BladeRow.mk (0:ℝ) 0 1 0 0 0 1 1 0]).rthick = 1
      ∧ (read_blade_planform Real.sqrt
          [BladeRow.mk 0 0 0 0 0 0 1 1 0, BladeRow.mk (0:ℝ) 0 1 0 0 0 1 1 0]).s.head?
            = some 0
      ∧ (read_blade_planform Real.sqrt
          [BladeRow.mk 0 0 0 0 0 0 1 1 0, BladeRow.mk (0:ℝ) 0 1 0 0 0 1 1 0]).s.getLast?
            = some 1) :=
  by
  have hne : ([BladeRow.mk 0 0 0 0 0 0 1 1 0,
      BladeRow.mk (0:ℝ) 0 1 0 0 0 1 1 0] : List (BladeRow ℝ)) ≠ [] := by simp
  have hmax : 0 < npmax (([BladeRow.mk 0 0 0 0 0 0 1 1 0,
      BladeRow.mk (0:ℝ) 0 1 0 0 0 1 1 0]).map BladeRow.rthick) := by
    norm_num [npmax]
  have htot : 0 < (calculate_length Real.sqrt
      (([BladeRow.mk 0 0 0 0 0 0 1 1 0, BladeRow.mk (0:ℝ) 0 1 0 0 0 1 1 0]).map
        fun r => (r.x, r.y, r.z))).getLastD 0 := by
    norm_num [calculate_length, arcFrom, segLen, Real.sqrt_one]
  exact ⟨⟨hne, hmax, htot⟩,
    read_blade_planform_post_invariant
      [BladeRow.mk 0 0 0 0 0 0 1 1 0, BladeRow.mk (0:ℝ) 0 1 0 0 0 1 1 0] hne hmax htot⟩

/-- Counterexample to C4 as stated: on the two-row table with axis points
(0,0,0) and (3,0,4) the arc length of the axis is 5, but the returned
`blade_length` is the last z-coordinate 4, so `blade_length` is *not* the
total arc length (`smax`). -/
theorem read_blade_planform_blade_length_ne_smax :
    (read_blade_planform Real.sqrt
        [BladeRow.mk 0 0 0 0 0 0 1 1 0, BladeRow.mk (3:ℝ) 0 4 0 0 0 1 1 0]).blade_length
    ≠ (read_blade_planform Real.sqrt
        [BladeRow.mk 0 0 0 0 0 0 1 1 0, BladeRow.mk (3:ℝ) 0 4 0 0 0 1 1 0]).smax := by
  have h25 : Real.sqrt 25 = 5 := by
    rw [show (25:ℝ) = 5 ^ 2 by norm_num]
    exact Real.sqrt_sq (by norm_num)
  have hbl : (read_blade_planform Real.sqrt
      [BladeRow.mk 0 0 0 0 0 0 1 1 0, BladeRow.mk (3:ℝ) 0 4 0 0 0 1 1 0]).blade_length = 4 := by
    norm_num [read_blade_planform]
  have hsm : (read_blade_planform Real.sqrt
      [BladeRow.mk 0 0 0 0 0 0 1 1 0, BladeRow.mk (3:ℝ) 0 4 0 0 0 1 1 0]).smax = 5 := by
    norm_num [read_blade_planform, calculate_length, arcFrom, segLen, h25]
  rw [hbl, hsm]
  norm_num

/-- C4 as amended: `read_blade_planform` takes `blade_length` from the
last z-coordinate of the table (`data[-1, 2]`), not from the arc length;
`smax` is the total cumulative Euclidean arc length of the (x, y, z) axis
curve, and `s` is that arc length divided by `smax`. -/
theorem read_blade_planform_blade_length_is_tip_z (data : List (BladeRow ℝ))
    (hne : data ≠ []) :
    (data.map BladeRow.z).getLast?
        = some (read_blade_planform Real.sqrt data).blade_length
    ∧ (read_blade_planform Real.sqrt data).smax
        = (calculate_length Real.sqrt (data.map fun r => (r.x, r.y, r.z))).getLastD 0
    ∧ (read_blade_planform Real.sqrt data).s
        = (calculate_length Real.sqrt (data.map fun r => (r.x, r.y, r.z))).map
            (· / (read_blade_planform Real.sqrt data).smax) := by
  refine ⟨?_, rfl, rfl⟩
  have hz : data.map BladeRow.z ≠ [] := by
    obtain ⟨r, rest, rfl⟩ := List.exists_cons_of_ne_nil hne
    simp
  exact getLast?_eq_some_getLastD _ hz

/-- Witness for the amended C4 on a one-row table. -/
theorem read_blade_planform_blade_length_is_tip_z_witness :
    (([BladeRow.mk (0:ℝ) 0 2 0 0 0 1 1 0] : List (BladeRow ℝ)) ≠ [])
    ∧ ((([BladeRow.mk (0:ℝ) 0 2 0 0 0 1 1 0] : List (BladeRow ℝ)).map BladeRow.z).getLast?
        = some (read_blade_planform Real.sqrt [BladeRow.mk (0:ℝ) 0 2 0 0 0 1 1 0]).blade_length
      ∧ (read_blade_planform Real.sqrt [BladeRow.mk (0:ℝ) 0 2 0 0 0 1 1 0]).smax
        = (calculate_length Real.sqrt
            (([BladeRow.mk (0:ℝ) 0 2 0 0 0 1 1 0] : List (BladeRow ℝ)).map
              fun r => (r.x, r.y, r.z))).getLastD 0
      ∧ (read_blade_planform Real.sqrt [BladeRow.mk (0:ℝ) 0 2 0 0 0 1 1 0]).s
        = (calculate_length Real.sqrt
            (([BladeRow.mk (0:ℝ) 0 2 0 0 0 1 1 0] : List (BladeRow ℝ)).map
              fun r => (r.x, r.y, r.z))).map
            (· / (read_blade_planform Real.sqrt [BladeRow.mk (0:ℝ) 0 2 0 0 0 1 1 0]).smax)) :=
  ⟨by simp, read_blade_planform_blade_length_is_tip_z _ (by simp)⟩
